import Mathlib

/-!
Verification of the reliable filesystem-operations layer of rustfs
(`crates/ecstore/src/disk/os.rs`).

The Rust functions are shallowly embedded:

* Filesystem paths are modelled by `RPath`, a normalized Rust `Path`
  (an absolute marker plus a list of `Normal` components); `Path::parent`,
  `Path::starts_with`, `Path::components().next()` and the emptiness test
  used by the source are translated component-wise.
* The raw filesystem primitives consumed by the source (`make_dir_all`,
  `mkdir`, `rename_std`, `file_exists` — out of scope per the spec, §6) are
  an explicit interface `Prim`/`RenPrim` over an arbitrary state type.  Two
  instantiations are used: an oracle that replays a prescribed sequence of
  outcomes (for the retry/idempotence behaviour, which depends on races),
  and a set-of-existing-directories state (for the "never creates at or
  above the boundary" invariant).
* `read_dir`, `is_empty_dir`, `is_empty_dir_except_xlmeta`,
  `check_path_length` and the UUID grammar of `uuid::Uuid::parse_str`
  (simple / hyphenated / braced / urn forms) are translated directly.
-/

set_option autoImplicit false

namespace RustfsOs

/-! ## Paths

`RPath` models a normalized Rust `Path`: `abs` records a leading root
separator, `comps` the `Normal` components in order.  (`CurDir`/`ParentDir`
components do not occur in the storage layer's normalized paths.) -/

structure RPath where
  abs : Bool
  comps : List String
deriving DecidableEq

/-- A single Rust `Component`: the root directory or a normal component. -/
inductive Comp where
  | root
  | normal (s : String)
deriving DecidableEq

/-- The component list of a path, as produced by `Path::components()`. -/
def RPath.compList (p : RPath) : List Comp :=
  (if p.abs then [Comp.root] else []) ++ p.comps.map Comp.normal

/-- Boolean component-wise list relation: `small` is an initial run of `big`. -/
def listPre : List Comp → List Comp → Bool
  | [], _ => true
  | _ :: _, [] => false
  | a :: as, b :: bs => a = b && listPre as bs

/-- Rust `big.starts_with(small)`: the components of `small` are an initial
run of the components of `big`. -/
def rStartsWith (big small : RPath) : Bool :=
  listPre small.compList big.compList

/-- Rust `path.to_string_lossy().is_empty()`: only the empty relative path
renders as the empty string. -/
def RPath.isEmptyPath (p : RPath) : Bool :=
  !p.abs && p.comps.isEmpty

/-- Rust `Path::parent`: `None` for `/` and for the empty path, otherwise
the path with the last component dropped. -/
def RPath.parentD (p : RPath) : Option RPath :=
  if p.comps.isEmpty then none else some ⟨p.abs, p.comps.dropLast⟩

/-- Rust `path.components().next()`. -/
def RPath.firstComp (p : RPath) : Option Comp :=
  p.compList.head?

/-! ## Filesystem primitives (spec §6 collaborators) -/

/-- Error kinds distinguished by the source (`io::ErrorKind` restricted to
the kinds it inspects). -/
inductive ErrKind where
  | alreadyExists
  | notFound
  | other
deriving DecidableEq

instance {ε α : Type} [DecidableEq ε] [DecidableEq α] : DecidableEq (Except ε α) := fun x y =>
  match x, y with
  | Except.ok a, Except.ok b =>
    if h : a = b then isTrue (by rw [h]) else isFalse (by intro hc; cases hc; exact h rfl)
  | Except.error a, Except.error b =>
    if h : a = b then isTrue (by rw [h]) else isFalse (by intro hc; cases hc; exact h rfl)
  | Except.ok _, Except.error _ => isFalse (by intro hc; cases hc)
  | Except.error _, Except.ok _ => isFalse (by intro hc; cases hc)

/-- Outcome of one raw filesystem primitive call. -/
inductive Outcome where
  | ok
  | err (k : ErrKind)
deriving DecidableEq

/-- The raw directory-creation primitives, over an abstract state `σ`:
`mkAll` is the coalesced `fs::make_dir_all` (create a directory and all
missing ancestors), `mk` is the single-level `fs::mkdir`. -/
structure Prim (σ : Type) where
  mkAllP : σ → RPath → Outcome × σ
  mkP : σ → RPath → Outcome × σ

/-- The primitives additionally consumed by the renamer: `renameP` is
`fs::rename_std`, `fexists` is `file_exists` (metadata probe). -/
structure RenPrim (σ : Type) extends Prim σ where
  renameP : σ → RPath → RPath → Outcome × σ
  fexists : σ → RPath → Bool × σ

/-- One recorded primitive invocation (creation target or rename operands). -/
inductive Call where
  | mkAll (p : RPath)
  | mk (p : RPath)
  | renameC (src dst : RPath)
deriving DecidableEq

/-! ## `os_mkdir_all` and `reliable_mkdir_all` (os.rs lines 211–268)

Both return the result, the final primitive state, and the trace of
primitive invocations (for `reliable_mkdir_all`, grouped per attempt and
tagged with the `base_dir` value that attempt used). -/

/-- `os_mkdir_all(dir_path, base_dir)`: early success when `base_dir` is
non-empty and `base_dir.starts_with(dir_path)`; otherwise create the parent
chain via the coalesced primitive and then the path itself, folding
"already exists" into success at each step. -/
def os_mkdir_all {σ : Type} (P : Prim σ) (dirPath baseDir : RPath) (s : σ) :
    Except ErrKind Unit × σ × List Call :=
  if !baseDir.isEmptyPath && rStartsWith baseDir dirPath then
    (Except.ok (), s, [])
  else
    match dirPath.parentD with
    | some par =>
      match P.mkAllP s par with
      | (Outcome.ok, s1) =>
        match P.mkP s1 dirPath with
        | (Outcome.ok, s2) => (Except.ok (), s2, [Call.mkAll par, Call.mk dirPath])
        | (Outcome.err ErrKind.alreadyExists, s2) =>
            (Except.ok (), s2, [Call.mkAll par, Call.mk dirPath])
        | (Outcome.err k, s2) => (Except.error k, s2, [Call.mkAll par, Call.mk dirPath])
      | (Outcome.err ErrKind.alreadyExists, s1) => (Except.ok (), s1, [Call.mkAll par])
      | (Outcome.err k, s1) => (Except.error k, s1, [Call.mkAll par])
    | none =>
      match P.mkP s dirPath with
      | (Outcome.ok, s1) => (Except.ok (), s1, [Call.mk dirPath])
      | (Outcome.err ErrKind.alreadyExists, s1) => (Except.ok (), s1, [Call.mk dirPath])
      | (Outcome.err k, s1) => (Except.error k, s1, [Call.mk dirPath])

/-- The conditional base-directory climb performed inside
`reliable_mkdir_all`'s retry branch: replace `base_dir` by its parent only
when that parent exists and its first component is not `RootDir`. -/
def climbBase (b : RPath) : RPath :=
  match b.parentD with
  | some bp =>
    match bp.firstComp with
    | some c => if c ≠ Comp.root then bp else b
    | none => b
  | none => b

/-- `reliable_mkdir_all(path, base_dir)`: run `os_mkdir_all`; on a first
`NotFound` failure, conditionally climb the base directory and retry once;
propagate any other failure (and any second failure). -/
def reliable_mkdir_all {σ : Type} (P : Prim σ) (path baseDir : RPath) (s : σ) :
    Except ErrKind Unit × σ × List (RPath × List Call) :=
  match os_mkdir_all P path baseDir s with
  | (Except.ok _, s1, c1) => (Except.ok (), s1, [(baseDir, c1)])
  | (Except.error ErrKind.notFound, s1, c1) =>
    let b2 := climbBase baseDir
    match os_mkdir_all P path b2 s1 with
    | (Except.ok _, s2, c2) => (Except.ok (), s2, [(baseDir, c1), (b2, c2)])
    | (Except.error k, s2, c2) => (Except.error k, s2, [(baseDir, c1), (b2, c2)])
  | (Except.error k, s1, c1) => (Except.error k, s1, [(baseDir, c1)])

/-! ## Oracle instantiation

Primitive outcomes are replayed from an environment `env : Nat → Outcome`
indexed by a call counter; this models the filesystem races the retry
logic exists for. -/

/-- Creation primitives driven by a prescribed outcome sequence. -/
def oraclePrim (env : Nat → Outcome) : Prim Nat :=
  { mkAllP := fun n _ => (env n, n + 1)
    mkP := fun n _ => (env n, n + 1) }

/-- All primitives driven by prescribed sequences: `env` yields the outcome
of the n-th fallible primitive call, `fenv` the answer of the n-th
`file_exists` probe. -/
def oracleRen (env : Nat → Outcome) (fenv : Nat → Bool) : RenPrim Nat :=
  { oraclePrim env with
    renameP := fun n _ _ => (env n, n + 1)
    fexists := fun n _ => (fenv n, n + 1) }

/-! ## `reliable_rename` (os.rs lines 172–209) -/

/-- The destination-parent preparation of `reliable_rename`: if `dst` has a
parent and it does not exist, create it via `reliable_mkdir_all` with the
same base directory. -/
def mk_parent_phase {σ : Type} (P : RenPrim σ) (dst baseDir : RPath) (s : σ) :
    Except ErrKind Unit × σ × List (RPath × List Call) :=
  match dst.parentD with
  | some par =>
    match P.fexists s par with
    | (true, s1) => (Except.ok (), s1, [])
    | (false, s1) => reliable_mkdir_all P.toPrim par baseDir s1
  | none => (Except.ok (), s, [])

/-- The bounded rename loop of `reliable_rename`: a `NotFound` failure on
either attempt is folded into success; any other first failure is retried
exactly once; a second non-`NotFound` failure is propagated. -/
def rename_retry_loop {σ : Type} (P : RenPrim σ) (src dst : RPath) (s : σ) :
    Except ErrKind Unit × σ × List Call :=
  match P.renameP s src dst with
  | (Outcome.ok, s1) => (Except.ok (), s1, [Call.renameC src dst])
  | (Outcome.err ErrKind.notFound, s1) => (Except.ok (), s1, [Call.renameC src dst])
  | (Outcome.err _, s1) =>
    match P.renameP s1 src dst with
    | (Outcome.ok, s2) => (Except.ok (), s2, [Call.renameC src dst, Call.renameC src dst])
    | (Outcome.err ErrKind.notFound, s2) =>
        (Except.ok (), s2, [Call.renameC src dst, Call.renameC src dst])
    | (Outcome.err k2, s2) =>
        (Except.error k2, s2, [Call.renameC src dst, Call.renameC src dst])

/-- `reliable_rename(src, dst, base_dir)` (the body of `rename_all`):
prepare the destination parent, then run the bounded rename loop.  The
trace keeps only the rename invocations of the loop (the preparation's
trace is the `reliable_mkdir_all` trace, already covered by that
function). -/
def reliable_rename {σ : Type} (P : RenPrim σ) (src dst baseDir : RPath) (s : σ) :
    Except ErrKind Unit × σ × List Call :=
  match mk_parent_phase P dst baseDir s with
  | (Except.ok _, s1, _) => rename_retry_loop P src dst s1
  | (Except.error k, s1, _) => (Except.error k, s1, [])

/-! ## Existing-directory state instantiation

For the boundary-crossing invariant the primitives act on the set of
directories that exist: the coalesced `make_dir_all` adds every missing
non-root ancestor-or-self of its argument, `mkdir` adds its argument when
the parent exists. -/

/-- The non-root ancestor-or-self chain of a path: every path with the same
absoluteness and a non-empty initial run of its components. -/
def prefixesOf (p : RPath) : List RPath :=
  (List.range p.comps.length).map fun i => ⟨p.abs, p.comps.take (i + 1)⟩

/-- State-model `make_dir_all`: create every missing non-root
ancestor-or-self of `p`. -/
def stMkAll (fs : List RPath) (p : RPath) : Outcome × List RPath :=
  (Outcome.ok, fs ++ (prefixesOf p).filter fun q => decide (q ∉ fs))

/-- State-model `mkdir`: fail with `AlreadyExists` when `p` exists, create
`p` when its parent exists (the root and the empty path always exist). -/
def stMk (fs : List RPath) (p : RPath) : Outcome × List RPath :=
  if p ∈ fs then (Outcome.err ErrKind.alreadyExists, fs)
  else
    match p.parentD with
    | some par =>
      if par.comps.isEmpty ∨ par ∈ fs then (Outcome.ok, fs ++ [p])
      else (Outcome.err ErrKind.notFound, fs)
    | none => (Outcome.err ErrKind.other, fs)

/-- The creation primitives over the existing-directory state. -/
def stPrim : Prim (List RPath) :=
  { mkAllP := stMkAll
    mkP := stMk }

/-- The existing-directory state is ancestor-closed: every non-root
ancestor of an existing directory exists. -/
def ancestorClosed (fs : List RPath) : Prop :=
  ∀ p ∈ fs, ∀ q ∈ prefixesOf p, q ∈ fs

instance (fs : List RPath) : Decidable (ancestorClosed fs) := by
  unfold ancestorClosed; infer_instance

/-! ## `read_dir` (os.rs lines 129–157)

A raw directory entry is a name plus the result of the `file_type()`
metadata probe (`none` models a probe failure, which aborts the listing).
An unopenable directory is modelled by feeding `none` instead of an entry
list into the callers (`dirListing`). -/

/-- Rust `FileType` restricted to what the source distinguishes. -/
inductive FType where
  | file
  | dir
  | other
deriving DecidableEq

/-- A raw directory entry: its file name and its `file_type()` result. -/
structure DirEntry where
  name : String
  ftype : Option FType
deriving DecidableEq

/-- The name filter of `read_dir`: entries named empty, `.` or `..` are
skipped before the metadata probe. -/
def nameSkip (n : String) : Bool :=
  n = "" || n = "." || n = ".."

/-- `read_dir(path, count)` over the raw entry stream: skip filtered names,
abort on a metadata failure, push file names bare and directory names with
a trailing separator, drop other types; decrement the counter after every
entry that passed the name filter and stop when it reaches zero
(`count = 0` on entry never stops, modelling the unlimited case).  The
source's `i32` counter is modelled by `Int`: directories never approach
the wrap-around bound of 2^32 entries. -/
def read_dir : List DirEntry → Int → Option (List String)
  | [], _ => some []
  | e :: rest, count =>
    if nameSkip e.name then read_dir rest count
    else
      match e.ftype with
      | none => none
      | some ft =>
        let pushed : List String :=
          match ft with
          | FType.file => [e.name]
          | FType.dir => [e.name ++ "/"]
          | FType.other => []
        if count - 1 = 0 then some pushed
        else (read_dir rest (count - 1)).map fun v => pushed ++ v

/-- The listing as seen by callers: `none` when the directory cannot be
opened, otherwise the `read_dir` result (which is itself `none` on a
mid-iteration metadata failure). -/
def dirListing (d : Option (List DirEntry)) (count : Int) : Option (List String) :=
  match d with
  | none => none
  | some es => read_dir es count

/-- `is_empty_dir(path)`: `read_dir(path, 1).is_ok_and(|v| v.is_empty())`. -/
def is_empty_dir (d : Option (List DirEntry)) : Bool :=
  match dirListing d 1 with
  | some v => v.isEmpty
  | none => false

/-! ## UUID grammar of `uuid::Uuid::parse_str`

`Uuid::parse_str` dispatches on the input length: 32 characters of hex
(simple form), 36 characters in hyphenated `8-4-4-4-12` form, the
hyphenated form in braces (38), or with the `urn:uuid:` marker (45). -/

/-- ASCII hexadecimal digit. -/
def hexDigit (c : Char) : Bool :=
  ('0' ≤ c && c ≤ '9') || ('a' ≤ c && c ≤ 'f') || ('A' ≤ c && c ≤ 'F')

/-- Hyphenated UUID form: length 36, hyphens at offsets 8, 13, 18 and 23,
hex digits everywhere else. -/
def uuidHyphenatedOk (cs : List Char) : Bool :=
  cs.length = 36 &&
    (List.range 36).all fun i =>
      if i = 8 ∨ i = 13 ∨ i = 18 ∨ i = 23 then cs.getD i ' ' = '-'
      else hexDigit (cs.getD i ' ')

/-- Simple UUID form: 32 hex digits, no hyphens. -/
def uuidSimpleOk (cs : List Char) : Bool :=
  cs.length = 32 && cs.all hexDigit

/-- `uuid::Uuid::parse_str(s).is_ok()`: any of the four accepted forms. -/
def uuidParseOk (s : String) : Bool :=
  let cs := s.data
  uuidSimpleOk cs || uuidHyphenatedOk cs ||
    (cs.length = 38 && cs.headD ' ' = '{' && cs.getLastD ' ' = '}' &&
      uuidHyphenatedOk (cs.drop 1).dropLast) ||
    (cs.length = 45 && decide (cs.take 9 = "urn:uuid:".data) &&
      uuidHyphenatedOk (cs.drop 9))

/-- The spec's notion of a canonical UUID name (§9.3: "fixed-width
hyphenated hex groups"): only the hyphenated form. -/
def canonicalUuidOk (s : String) : Bool :=
  uuidHyphenatedOk s.data

/-- Rust `name.ends_with(SLASH_SEPARATOR)`. -/
def endsWithSlash (s : String) : Bool :=
  s.data.getLastD ' ' = '/' && s.data ≠ []

/-- Rust `name.trim_end_matches(SLASH_SEPARATOR)`: drop all trailing
separator characters. -/
def trimTrailingSlashes (s : String) : String :=
  ⟨(s.data.reverse.dropWhile fun c => c = '/').reverse⟩

/-- `is_empty_dir_except_xlmeta(path)`: list unlimited; on any listing
failure answer `true`; otherwise `true` iff no entry is a subdirectory
(trailing separator) whose name, separator stripped, fails UUID parsing. -/
def is_empty_dir_except_xlmeta (d : Option (List DirEntry)) : Bool :=
  match dirListing d 0 with
  | some entries =>
    !entries.any fun name =>
      if !endsWithSlash name then false
      else !uuidParseOk (trimTrailingSlashes name)
  | none => true

/-! ## `check_path_length` (os.rs lines 29–66) -/

/-- The target platform class, resolved from the source's `cfg!` tests. -/
inductive Os where
  | linux
  | macos
  | windows
deriving DecidableEq

/-- The disk-error taxonomy raised by the path validator. -/
inductive DiskError where
  | fileNameTooLong
  | fileAccessDenied
deriving DecidableEq

/-- The per-segment counting loop of `check_path_length`: reset the counter
on `/` (and on `\` on Windows), otherwise count the character and fail once
a segment exceeds 255 characters. -/
def segLoop (os : Os) : List Char → Nat → Option DiskError
  | [], _ => none
  | c :: rest, count =>
    if c = '/' then segLoop os rest 0
    else if os = Os.windows ∧ c = '\\' then segLoop os rest 0
    else if count + 1 > 255 then some DiskError.fileNameTooLong
    else segLoop os rest (count + 1)

/-- `check_path_length(path_name)`: macOS total-byte limit 1016, Windows
total-byte limit 1024, whole-path `.`/`..`/`/` rejection, then the
per-segment limit. -/
def check_path_length (os : Os) (p : String) : Except DiskError Unit :=
  if os = Os.macos ∧ p.utf8ByteSize > 1016 then Except.error DiskError.fileNameTooLong
  else if os = Os.windows ∧ p.utf8ByteSize > 1024 then Except.error DiskError.fileNameTooLong
  else if p = "." ∨ p = ".." ∨ p = "/" then Except.error DiskError.fileAccessDenied
  else
    match segLoop os p.data 0 with
    | some e => Except.error e
    | none => Except.ok ()

/-- The path's segments between separators (separator set as in
`check_path_length`: `/`, plus `\` on Windows). -/
def splitSegs (os : Os) : List Char → List (List Char)
  | [] => [[]]
  | c :: rest =>
    if c = '/' then [] :: splitSegs os rest
    else if os = Os.windows ∧ c = '\\' then [] :: splitSegs os rest
    else
      match splitSegs os rest with
      | s :: ss => (c :: s) :: ss
      | [] => [[c]]

/-- Some segment of the path exceeds 255 characters. -/
def hasLongSeg (os : Os) (p : String) : Bool :=
  (splitSegs os p.data).any fun s => decide (255 < s.length)

/-! ## Helper lemmas: oracle-driven directory creation -/

/-- `os_mkdir_all` never surfaces `AlreadyExists`: both creation steps fold
it into success. -/
theorem os_oracle_ne_already (env : Nat → Outcome) (path baseDir : RPath) (s : Nat) :
    (os_mkdir_all (oraclePrim env) path baseDir s).1 ≠ Except.error ErrKind.alreadyExists := by
  unfold os_mkdir_all oraclePrim
  split
  · simp
  · cases hpar : path.parentD with
    | none =>
      cases h0 : env s with
      | ok => simp [h0]
      | err k0 => cases k0 <;> simp [h0]
    | some par =>
      cases h0 : env s with
      | ok =>
        cases h1 : env (s + 1) with
        | ok => simp [h0, h1]
        | err k1 => cases k1 <;> simp [h0, h1]
      | err k0 => cases k0 <;> simp [h0]

/-- When every primitive outcome is `ok` or `AlreadyExists`, `os_mkdir_all`
succeeds. -/
theorem os_oracle_benign_ok (env : Nat → Outcome) (path baseDir : RPath) (s : Nat)
    (h : ∀ n, env n = Outcome.ok ∨ env n = Outcome.err ErrKind.alreadyExists) :
    (os_mkdir_all (oraclePrim env) path baseDir s).1 = Except.ok () := by
  unfold os_mkdir_all oraclePrim
  split
  · simp
  · cases hpar : path.parentD with
    | none => rcases h s with h0 | h0 <;> simp [h0]
    | some par =>
      rcases h s with h0 | h0
      · rcases h (s + 1) with h1 | h1 <;> simp [h0, h1]
      · simp [h0]

/-! ## C1: the early-return boundary test -/

/-- C1 (counterexample): the claim's early-return direction fails on the
code.  Take `path = a/b` and `boundary = a`: the boundary is non-empty and
an ancestor-or-self of the path, yet `reliable_mkdir_all` (with every
primitive succeeding) does attempt creation — its primitive trace is
non-empty rather than empty. -/
theorem mkdir_boundary_direction_cex :
    rStartsWith ⟨false, ["a", "b"]⟩ ⟨false, ["a"]⟩ = true ∧
    RPath.isEmptyPath ⟨false, ["a"]⟩ = false ∧
    ((reliable_mkdir_all (oraclePrim fun _ => Outcome.ok)
        ⟨false, ["a", "b"]⟩ ⟨false, ["a"]⟩ 0).2.2.map Prod.snd).flatten ≠ [] := by
  decide

/-- C1 (amended): the early return tests the opposite containment: for
every outcome environment, whenever the boundary is non-empty and the
*path* is an ancestor-or-self of the *boundary*
(Rust `base_dir.starts_with(dir_path)`), `reliable_mkdir_all` returns
success immediately and invokes no creation primitive at all. -/
theorem mkdir_early_return_spec (env : Nat → Outcome) (path baseDir : RPath) (s : Nat)
    (hne : baseDir.isEmptyPath = false) (hanc : rStartsWith baseDir path = true) :
    reliable_mkdir_all (oraclePrim env) path baseDir s = (Except.ok (), s, [(baseDir, [])]) := by
  simp [reliable_mkdir_all, os_mkdir_all, hne, hanc]

/-- C1 witness: a concrete early return (`path = a`, `boundary = a/b`). -/
theorem mkdir_early_return_spec_w :
    reliable_mkdir_all (oraclePrim fun _ => Outcome.ok) ⟨false, ["a"]⟩ ⟨false, ["a", "b"]⟩ 0 =
      (Except.ok (), 0, [(⟨false, ["a", "b"]⟩, [])]) :=
  mkdir_early_return_spec (fun _ => Outcome.ok) ⟨false, ["a"]⟩ ⟨false, ["a", "b"]⟩ 0
    (by decide) (by decide)

/-! ## C6: idempotence of `create_all` -/

/-- C6: `create_all` never fails with `AlreadyExists` — at every creation
step that outcome is folded into success — and when every primitive
outcome is `ok` or `AlreadyExists` (the situation of a second identical
call, everything already created), the whole call succeeds. -/
theorem create_all_idempotent (env : Nat → Outcome) (path baseDir : RPath) (s : Nat) :
    (reliable_mkdir_all (oraclePrim env) path baseDir s).1 ≠ Except.error ErrKind.alreadyExists ∧
    ((∀ n, env n = Outcome.ok ∨ env n = Outcome.err ErrKind.alreadyExists) →
      (reliable_mkdir_all (oraclePrim env) path baseDir s).1 = Except.ok ()) := by
  constructor
  · unfold reliable_mkdir_all
    rcases hos : os_mkdir_all (oraclePrim env) path baseDir s with ⟨r1, s1, c1⟩
    have h1 := os_oracle_ne_already env path baseDir s
    rw [hos] at h1
    simp only [hos]
    cases r1 with
    | ok u => simp
    | error k1 =>
      cases k1 with
      | alreadyExists => exact (h1 rfl).elim
      | notFound =>
        rcases hos2 : os_mkdir_all (oraclePrim env) path (climbBase baseDir) s1 with ⟨r2, s2, c2⟩
        have h2 := os_oracle_ne_already env path (climbBase baseDir) s1
        rw [hos2] at h2
        simp only [hos2]
        cases r2 with
        | ok u => simp
        | error k2 => simpa using h2
      | other => simp
  · intro hb
    unfold reliable_mkdir_all
    rcases hos : os_mkdir_all (oraclePrim env) path baseDir s with ⟨r1, s1, c1⟩
    have h1 := os_oracle_benign_ok env path baseDir s hb
    rw [hos] at h1
    simp only [hos]
    cases r1 with
    | ok u => simp
    | error k1 => simp at h1

/-- C6 witness: with every outcome `AlreadyExists` (a second identical
call), `create_all` succeeds. -/
theorem create_all_idempotent_w :
    (reliable_mkdir_all (oraclePrim fun _ => Outcome.err ErrKind.alreadyExists)
        ⟨false, ["a", "b"]⟩ ⟨false, ["z"]⟩ 0).1 = Except.ok () :=
  (create_all_idempotent (fun _ => Outcome.err ErrKind.alreadyExists)
      ⟨false, ["a", "b"]⟩ ⟨false, ["z"]⟩ 0).2 (fun _ => Or.inr rfl)

/-! ## C7: the bounded retry with boundary climb -/

/-- The first component of a path: the root for absolute paths, else the
first normal component. -/
theorem firstComp_eq (p : RPath) :
    p.firstComp = if p.abs then some Comp.root else p.comps.head?.map Comp.normal := by
  unfold RPath.firstComp RPath.compList
  cases p.abs
  · simp
  · simp

/-- C7 (counterexample): the boundary is *not* replaced by its parent when
the boundary is absolute.  With boundary `/a/b` and path `/c`, the first
attempt fails `NotFound` (outcome environment), a retry happens, but both
recorded attempts use the original boundary `/a/b`, although the parent
`/a` exists and is not above the filesystem root. -/
theorem mkdir_retry_climb_cex :
    ((reliable_mkdir_all
        (oraclePrim fun n => if n = 0 then Outcome.err ErrKind.notFound else Outcome.ok)
        ⟨true, ["c"]⟩ ⟨true, ["a", "b"]⟩ 0).2.2.map Prod.fst =
      [⟨true, ["a", "b"]⟩, ⟨true, ["a", "b"]⟩]) ∧
    RPath.parentD ⟨true, ["a", "b"]⟩ = some ⟨true, ["a"]⟩ ∧
    (⟨true, ["a"]⟩ : RPath) ≠ ⟨true, ["a", "b"]⟩ := by
  decide

/-- C7 (amended): on the first `NotFound` failure the whole algorithm is
retried exactly once, with the boundary replaced by its parent only when
that parent is a non-empty relative path (its first component exists and is
not the root); otherwise the retry reuses the unchanged boundary.  The
second attempt's result — including a second `NotFound` — is propagated,
no third attempt ever occurs, and non-`NotFound` first failures are
propagated without retry. -/
theorem mkdir_retry_spec (env : Nat → Outcome) (path baseDir : RPath) (s : Nat) :
    (∀ s1 c1, os_mkdir_all (oraclePrim env) path baseDir s = (Except.ok (), s1, c1) →
      reliable_mkdir_all (oraclePrim env) path baseDir s = (Except.ok (), s1, [(baseDir, c1)])) ∧
    (∀ k s1 c1, k ≠ ErrKind.notFound →
      os_mkdir_all (oraclePrim env) path baseDir s = (Except.error k, s1, c1) →
      reliable_mkdir_all (oraclePrim env) path baseDir s =
        (Except.error k, s1, [(baseDir, c1)])) ∧
    (∀ s1 c1,
      os_mkdir_all (oraclePrim env) path baseDir s = (Except.error ErrKind.notFound, s1, c1) →
      reliable_mkdir_all (oraclePrim env) path baseDir s =
        ((os_mkdir_all (oraclePrim env) path (climbBase baseDir) s1).1,
         (os_mkdir_all (oraclePrim env) path (climbBase baseDir) s1).2.1,
         [(baseDir, c1),
          (climbBase baseDir, (os_mkdir_all (oraclePrim env) path (climbBase baseDir) s1).2.2)])) ∧
    (reliable_mkdir_all (oraclePrim env) path baseDir s).2.2.length ≤ 2 ∧
    (∀ bp, baseDir.parentD = some bp →
      (bp.abs = false ∧ bp.comps ≠ [] → climbBase baseDir = bp) ∧
      (bp.abs = true ∨ bp.comps = [] → climbBase baseDir = baseDir)) ∧
    (baseDir.parentD = none → climbBase baseDir = baseDir) := by
  refine ⟨?_, ?_, ?_, ?_, ?_, ?_⟩
  · intro s1 c1 hos
    simp [reliable_mkdir_all, hos]
  · intro k s1 c1 hk hos
    cases k with
    | alreadyExists => simp [reliable_mkdir_all, hos]
    | notFound => exact (hk rfl).elim
    | other => simp [reliable_mkdir_all, hos]
  · intro s1 c1 hos
    rcases hos2 : os_mkdir_all (oraclePrim env) path (climbBase baseDir) s1 with ⟨r2, s2, c2⟩
    cases r2 with
    | ok u => simp [reliable_mkdir_all, hos, hos2]
    | error k2 => simp [reliable_mkdir_all, hos, hos2]
  · unfold reliable_mkdir_all
    rcases hos : os_mkdir_all (oraclePrim env) path baseDir s with ⟨r1, s1, c1⟩
    cases r1 with
    | ok u => simp
    | error k1 =>
      cases k1 with
      | alreadyExists => simp
      | notFound =>
        rcases hos2 : os_mkdir_all (oraclePrim env) path (climbBase baseDir) s1 with ⟨r2, s2, c2⟩
        simp only [hos2]
        cases r2 with
        | ok u => simp
        | error k2 => simp
      | other => simp
  · intro bp hbp
    constructor
    · rintro ⟨habs, hcomps⟩
      rcases hx : bp.comps with _ | ⟨x, xs⟩
      · exact (hcomps hx).elim
      · have hf : bp.firstComp = some (Comp.normal x) := by
          rw [firstComp_eq, habs, hx]; rfl
        simp [climbBase, hbp, hf]
    · intro hor
      have hf : bp.firstComp = some Comp.root ∨ bp.firstComp = none := by
        rcases hor with habs | hcomps
        · left; rw [firstComp_eq, habs]; rfl
        · cases hab : bp.abs
          · right; rw [firstComp_eq, hab, hcomps]; rfl
          · left; rw [firstComp_eq, hab]; rfl
      rcases hf with hf | hf <;> simp [climbBase, hbp, hf]
  · intro hnone
    simp [climbBase, hnone]

/-- C7 witness: a successful first attempt is returned as-is, with a
single recorded attempt. -/
theorem mkdir_retry_spec_w :
    reliable_mkdir_all (oraclePrim fun _ => Outcome.ok) ⟨false, ["a", "b"]⟩ ⟨false, ["z"]⟩ 0 =
      (Except.ok (), 2,
        [(⟨false, ["z"]⟩, [Call.mkAll ⟨false, ["a"]⟩, Call.mk ⟨false, ["a", "b"]⟩])]) :=
  (mkdir_retry_spec (fun _ => Outcome.ok) ⟨false, ["a", "b"]⟩ ⟨false, ["z"]⟩ 0).1
    2 [Call.mkAll ⟨false, ["a"]⟩, Call.mk ⟨false, ["a", "b"]⟩] (by decide)

/-! ## C10: short-circuit on `AlreadyExists` from the coalesced primitive -/

/-- C10: when the path has a parent, the boundary is not at-or-below the
path (no early return), and the coalesced create-all-ancestors primitive
reports `AlreadyExists`, `os_mkdir_all` returns success immediately: the
trace contains only the parent-chain call, never a creation attempt for
the path itself. -/
theorem os_mkdir_all_parent_exists_spec (env : Nat → Outcome) (path baseDir : RPath)
    (s : Nat) (par : RPath) (hpar : path.parentD = some par)
    (hnb : rStartsWith baseDir path = false)
    (hae : env s = Outcome.err ErrKind.alreadyExists) :
    os_mkdir_all (oraclePrim env) path baseDir s = (Except.ok (), s + 1, [Call.mkAll par]) := by
  simp [os_mkdir_all, oraclePrim, hpar, hnb, hae]

/-- C10 witness: concrete instance with `path = a/b`, `boundary = z`. -/
theorem os_mkdir_all_parent_exists_spec_w :
    os_mkdir_all (oraclePrim fun _ => Outcome.err ErrKind.alreadyExists)
        ⟨false, ["a", "b"]⟩ ⟨false, ["z"]⟩ 0 =
      (Except.ok (), 1, [Call.mkAll ⟨false, ["a"]⟩]) :=
  os_mkdir_all_parent_exists_spec (fun _ => Outcome.err ErrKind.alreadyExists)
    ⟨false, ["a", "b"]⟩ ⟨false, ["z"]⟩ 0 ⟨false, ["a"]⟩ (by decide) (by decide) (by decide)

/-! ## C2: `is_empty_dir` -/

/-- C2 (counterexample): an unopenable directory yields `false`, not
`true`: the claimed equivalence ("no entries, *or* the directory cannot be
opened") fails at the unopenable input. -/
theorem is_empty_dir_open_failure_cex :
    ¬ (is_empty_dir none = true ↔
        (dirListing none 1 = some [] ∨ (none : Option (List DirEntry)) = none)) := by
  decide

/-- C2 (amended): `is_empty_dir` returns true iff the directory can be
opened and listed and the limit-1 listing yields no entries; an open (or
metadata) failure yields `false`. -/
theorem is_empty_dir_spec (d : Option (List DirEntry)) :
    is_empty_dir d = true ↔ dirListing d 1 = some [] := by
  unfold is_empty_dir
  rcases h : dirListing d 1 with _ | v
  · simp
  · simp [List.isEmpty_iff]

/-! ## C3: the boundary is never created

Structural lemmas about `rStartsWith` and `prefixesOf`, then the invariant
over the existing-directory state model. -/

theorem listPre_iff_append (cs bs : List Comp) :
    listPre cs bs = true ↔ ∃ t, cs ++ t = bs := by
  induction cs generalizing bs with
  | nil => simp [listPre]
  | cons c cs ih =>
    cases bs with
    | nil => simp [listPre]
    | cons b bs =>
      simp only [listPre, Bool.and_eq_true, decide_eq_true_eq, ih, List.cons_append,
        List.cons.injEq]
      constructor
      · rintro ⟨rfl, t, rfl⟩; exact ⟨t, rfl, rfl⟩
      · rintro ⟨t, rfl, rfl⟩; exact ⟨rfl, t, rfl⟩

/-- `Comp.normal` is injective. -/
theorem comp_normal_injective : Function.Injective Comp.normal := by
  intro a b h; cases h; rfl

/-- Elements of `prefixesOf` have non-empty components. -/
theorem prefixesOf_comps_ne_nil {p q : RPath} (h : q ∈ prefixesOf p) : q.comps ≠ [] := by
  unfold prefixesOf at h
  rcases List.mem_map.mp h with ⟨i, hi, rfl⟩
  have hi' := List.mem_range.mp hi
  simp only [ne_eq]
  intro hcon
  rcases List.take_eq_nil_iff.mp hcon with h0 | h0
  · omega
  · rw [h0] at hi'
    simp at hi'

/-- If `q` is at-or-above `B` (Rust `B.starts_with(q)`) and has non-empty
components, then `q` is one of the non-root ancestor-or-self paths of
`B`. -/
theorem rStartsWith_prefixes (B q : RPath) (hq : q.comps ≠ [])
    (h : rStartsWith B q = true) : q ∈ prefixesOf B := by
  obtain ⟨t, ht⟩ := (listPre_iff_append q.compList B.compList).mp h
  unfold RPath.compList at ht
  have hmain : q.abs = B.abs ∧ q.comps.map Comp.normal ++ t = B.comps.map Comp.normal := by
    cases hqa : q.abs <;> cases hBa : B.abs <;> rw [hqa, hBa] at ht <;> simp at ht
    · exact ⟨rfl, ht⟩
    · rcases hx : q.comps with _ | ⟨x, xs⟩
      · exact (hq hx).elim
      · rw [hx] at ht; simp at ht
    · rcases hy : B.comps with _ | ⟨y, ys⟩
      · rw [hy] at ht; simp at ht
      · rw [hy] at ht; simp at ht
    · exact ⟨rfl, ht⟩
  obtain ⟨habs, htm⟩ := hmain
  have hlen : q.comps.length ≤ B.comps.length := by
    have := congrArg List.length htm
    simp at this
    omega
  have htake : B.comps.take q.comps.length = q.comps := by
    have h1 : (q.comps.map Comp.normal ++ t).take q.comps.length =
        (B.comps.map Comp.normal).take q.comps.length := by rw [htm]
    rw [List.take_append_of_le_length (by simp)] at h1
    simp only [← List.map_take] at h1
    have h2 := List.map_injective_iff.mpr comp_normal_injective h1
    rw [List.take_length] at h2
    exact h2.symm
  have hpos : 1 ≤ q.comps.length := by
    rcases hx : q.comps with _ | ⟨x, xs⟩
    · exact (hq hx).elim
    · simp [hx]
  refine List.mem_map.mpr ⟨q.comps.length - 1, List.mem_range.mpr (by omega), ?_⟩
  rw [Nat.sub_add_cancel hpos, htake]
  rcases q with ⟨qa, qc⟩
  simp at habs ⊢
  exact habs.symm

/-- State after `stMk`: unchanged, or the target appended (the latter only
when the target has a parent). -/
theorem stMk_mem {fs : List RPath} {p q : RPath} (h : q ∈ (stMk fs p).2) :
    q ∈ fs ∨ (q = p ∧ p.parentD ≠ none) := by
  unfold stMk at h
  split at h
  · exact Or.inl h
  · split at h
    · split at h
      · rcases List.mem_append.mp h with h' | h'
        · exact Or.inl h'
        · refine Or.inr ⟨List.mem_singleton.mp h', ?_⟩
          intro hcon
          simp_all
      · exact Or.inl h
    · exact Or.inl h

/-- State after `stMkAll`: unchanged entries or non-root ancestors-or-self
of the target. -/
theorem stMkAll_mem {fs : List RPath} {p q : RPath} (h : q ∈ (stMkAll fs p).2) :
    q ∈ fs ∨ q ∈ prefixesOf p := by
  unfold stMkAll at h
  rcases List.mem_append.mp h with h' | h'
  · exact Or.inl h'
  · exact Or.inr (List.mem_filter.mp h').1

/-- A path with a parent has non-empty components. -/
theorem parentD_some_comps {p : RPath} (h : p.parentD ≠ none) : p.comps ≠ [] := by
  intro hcon
  exact h (by simp [RPath.parentD, hcon])

/-- Any directory present after `os_mkdir_all` (state model) was already
present or has non-empty components. -/
theorem os_st_mem (path base : RPath) (fs : List RPath) (q : RPath)
    (h : q ∈ (os_mkdir_all stPrim path base fs).2.1) : q ∈ fs ∨ q.comps ≠ [] := by
  unfold os_mkdir_all at h
  split at h
  · exact Or.inl h
  · rcases hpar : path.parentD with _ | par
    · simp only [hpar] at h
      rcases hmk : stPrim.mkP fs path with ⟨o2, fs2⟩
      simp only [hmk] at h
      have hst : q ∈ (stMk fs path).2 := by
        have heq : (stMk fs path).2 = fs2 := congrArg Prod.snd hmk
        rw [heq]
        cases o2 with
        | ok => exact h
        | err k => cases k <;> exact h
      rcases stMk_mem hst with h' | ⟨rfl, hp⟩
      · exact Or.inl h'
      · exact Or.inr (parentD_some_comps hp)
    · simp only [hpar] at h
      rcases hma : stPrim.mkAllP fs par with ⟨o1, fs1⟩
      have ho1 : o1 = Outcome.ok := by
        have h' : (stMkAll fs par).1 = o1 := congrArg Prod.fst hma
        rw [← h']
        rfl
      subst ho1
      simp only [hma] at h
      rcases hmk : stPrim.mkP fs1 path with ⟨o2, fs2⟩
      simp only [hmk] at h
      have hq2 : q ∈ (stMk fs1 path).2 := by
        have heq : (stMk fs1 path).2 = fs2 := congrArg Prod.snd hmk
        rw [heq]
        cases o2 with
        | ok => exact h
        | err k => cases k <;> exact h
      have hfs1 : fs1 = (stMkAll fs par).2 := (congrArg Prod.snd hma).symm
      rcases stMk_mem hq2 with h' | ⟨rfl, hp⟩
      · rw [hfs1] at h'
        rcases stMkAll_mem h' with h'' | h''
        · exact Or.inl h''
        · exact Or.inr (prefixesOf_comps_ne_nil h'')
      · exact Or.inr (parentD_some_comps hp)

/-- Any directory present after `reliable_mkdir_all` (state model) was
already present or has non-empty components. -/
theorem reliable_st_mem (path base : RPath) (fs : List RPath) (q : RPath)
    (h : q ∈ (reliable_mkdir_all stPrim path base fs).2.1) : q ∈ fs ∨ q.comps ≠ [] := by
  unfold reliable_mkdir_all at h
  rcases ho : os_mkdir_all stPrim path base fs with ⟨r1, fs1, c1⟩
  simp only [ho] at h
  have hfs1 : fs1 = (os_mkdir_all stPrim path base fs).2.1 := by rw [ho]
  cases r1 with
  | ok u =>
    subst hfs1
    exact os_st_mem path base fs q h
  | error k1 =>
    cases k1 with
    | alreadyExists =>
      subst hfs1
      exact os_st_mem path base fs q h
    | other =>
      subst hfs1
      exact os_st_mem path base fs q h
    | notFound =>
      rcases ho2 : os_mkdir_all stPrim path (climbBase base) fs1 with ⟨r2, fs2, c2⟩
      simp only [ho2] at h
      have hq2 : q ∈ (os_mkdir_all stPrim path (climbBase base) fs1).2.1 := by
        rw [ho2]
        cases r2 with
        | ok u => exact h
        | error k2 => exact h
      rcases os_st_mem path (climbBase base) fs1 q hq2 with h' | h'
      · subst hfs1
        exact os_st_mem path base fs q h'
      · exact Or.inr h'

/-- C3 (counterexample): when the boundary does not yet exist, `create_all`
does create a component equal to the boundary.  Starting from an empty
filesystem with `path = a/b/c` and `boundary = a/b`, the boundary `a/b`
itself is created (it is in the final state, was not in the initial one,
and is trivially at-or-above the boundary). -/
theorem create_all_boundary_cex :
    (⟨false, ["a", "b"]⟩ : RPath) ∈
        (reliable_mkdir_all stPrim ⟨false, ["a", "b", "c"]⟩ ⟨false, ["a", "b"]⟩ []).2.1 ∧
    (⟨false, ["a", "b"]⟩ : RPath) ∉ ([] : List RPath) ∧
    rStartsWith ⟨false, ["a", "b"]⟩ ⟨false, ["a", "b"]⟩ = true := by
  decide

/-- C3 (amended): provided the boundary already exists (or is the root or
empty path) and the existing directories are ancestor-closed, no execution
of `create_all` creates a path at-or-above the boundary: every directory
in the final state that was not in the initial state fails
`boundary.starts_with(·)`. -/
theorem create_all_never_creates_boundary (fs : List RPath) (path base : RPath)
    (hc : ancestorClosed fs) (hB : base ∈ fs ∨ base.comps = []) :
    ∀ q, q ∈ (reliable_mkdir_all stPrim path base fs).2.1 → q ∉ fs →
      rStartsWith base q = false := by
  intro q hqfin hqnew
  cases hx : rStartsWith base q with
  | false => rfl
  | true =>
    exfalso
    have hq : q.comps ≠ [] := by
      rcases reliable_st_mem path base fs q hqfin with h' | h'
      · exact (hqnew h').elim
      · exact h'
    have hpre := rStartsWith_prefixes base q hq hx
    rcases hB with hBf | hBe
    · exact hqnew (hc base hBf q hpre)
    · rw [prefixesOf, hBe] at hpre
      simp at hpre

/-- C3 witness: with boundary `a` existing and ancestor-closed state
`[a]`, the newly created `a/b` is not at-or-above the boundary. -/
theorem create_all_never_creates_boundary_w :
    rStartsWith ⟨false, ["a"]⟩ ⟨false, ["a", "b"]⟩ = false :=
  create_all_never_creates_boundary [⟨false, ["a"]⟩] ⟨false, ["a", "b"]⟩ ⟨false, ["a"]⟩
    (by decide) (Or.inl (by decide)) ⟨false, ["a", "b"]⟩ (by decide) (by decide)

/-! ## C4: the listing limit

`read_dir` is characterized against the entry stream: the counter is
decremented for every entry that passes the name filter — including
entries that are neither a regular file nor a directory. -/

/-- The listed form of one raw entry: `none` when the name is filtered or
the type is neither file nor directory, else the (possibly
separator-suffixed) name. -/
def specAccept (e : DirEntry) : Option String :=
  if nameSkip e.name then none
  else
    match e.ftype with
    | some FType.file => some e.name
    | some FType.dir => some (e.name ++ "/")
    | _ => none

theorem read_dir_cons_skip (e : DirEntry) (rest : List DirEntry) (n : Int)
    (h : nameSkip e.name = true) : read_dir (e :: rest) n = read_dir rest n := by
  simp only [read_dir, h]
  rfl

theorem read_dir_cons_err (e : DirEntry) (rest : List DirEntry) (n : Int)
    (h : nameSkip e.name = false) (hf : e.ftype = none) : read_dir (e :: rest) n = none := by
  simp only [read_dir, h, hf]
  rfl

theorem read_dir_cons_ft (e : DirEntry) (rest : List DirEntry) (n : Int) (ft : FType)
    (h : nameSkip e.name = false) (hf : e.ftype = some ft) :
    read_dir (e :: rest) n =
      (if n - 1 = 0 then
        some (match ft with
          | FType.file => [e.name]
          | FType.dir => [e.name ++ "/"]
          | FType.other => [])
      else
        (read_dir rest (n - 1)).map fun v =>
          (match ft with
            | FType.file => [e.name]
            | FType.dir => [e.name ++ "/"]
            | FType.other => []) ++ v) := by
  simp only [read_dir, h, hf]
  cases ft <;> simp

/-- `read_dir` with a non-positive counter (the unlimited case): the
counter never reaches zero, so every name-passing entry is examined; the
result is all accepted entries, or a failure if any name-passing entry has
no readable metadata. -/
theorem read_dir_nonpos (es : List DirEntry) : ∀ (n : Int), n ≤ 0 →
    read_dir es n =
      if es.all (fun e => nameSkip e.name || e.ftype.isSome)
      then some (es.filterMap specAccept) else none := by
  induction es with
  | nil => intro n hn; simp [read_dir]
  | cons e rest ih =>
    intro n hn
    cases hskip : nameSkip e.name
    · cases hft : e.ftype with
      | none =>
        rw [read_dir_cons_err e rest n hskip hft]
        simp [List.all_cons, hskip, hft]
      | some ft =>
        rw [read_dir_cons_ft e rest n ft hskip hft]
        have hne : n - 1 ≠ 0 := by omega
        rw [if_neg hne, ih (n - 1) (by omega)]
        cases hall : rest.all (fun e => nameSkip e.name || e.ftype.isSome)
        · simp [List.all_cons, hskip, hft, hall]
        · cases ft <;> simp [List.all_cons, hskip, hft, hall, specAccept]
    · rw [read_dir_cons_skip e rest n hskip, ih n hn]
      simp [List.all_cons, hskip, specAccept]

/-- `read_dir` with a positive counter: exactly the first `n` name-passing
entries are examined (the counter is decremented for each of them,
accepted or not); the result is the accepted entries among them, or a
failure if one of them has no readable metadata. -/
theorem read_dir_pos (es : List DirEntry) : ∀ (n : Int), 0 < n →
    read_dir es n =
      (if ((es.filter fun e => !nameSkip e.name).take n.toNat).all (fun e => e.ftype.isSome)
       then some (((es.filter fun e => !nameSkip e.name).take n.toNat).filterMap specAccept)
       else none) := by
  induction es with
  | nil => intro n hn; simp [read_dir]
  | cons e rest ih =>
    intro n hn
    cases hskip : nameSkip e.name
    · obtain ⟨k, hk⟩ : ∃ k, n.toNat = k + 1 := ⟨n.toNat - 1, by omega⟩
      cases hft : e.ftype with
      | none =>
        rw [read_dir_cons_err e rest n hskip hft]
        simp [List.filter_cons, hskip, hk, hft]
      | some ft =>
        by_cases h1 : n = 1
        · subst h1
          rw [read_dir_cons_ft e rest 1 ft hskip hft]
          cases ft <;> simp [List.filter_cons, hskip, hft, specAccept]
        · have hgt : 1 < n := by omega
          rw [read_dir_cons_ft e rest n ft hskip hft]
          have hne : n - 1 ≠ 0 := by omega
          rw [if_neg hne, ih (n - 1) (by omega)]
          have hk2 : (n - 1).toNat = k := by omega
          rw [hk2]
          cases hall : ((rest.filter fun e => !nameSkip e.name).take k).all
              (fun e => e.ftype.isSome)
          · simp [List.filter_cons, hskip, hft, hk, hall]
          · cases ft <;> simp [List.filter_cons, hskip, hft, hk, hall, specAccept]
    · rw [read_dir_cons_skip e rest n hskip, ih n hn]
      simp [List.filter_cons, hskip]

/-- C4 (counterexample): with limit 1 and a first entry that is neither a
regular file nor a directory, `read_dir` stops after that skipped entry
and returns no entries, while the first accepted entry of the stream is
`b`: the limit does not count accepted entries. -/
theorem read_dir_limit_cex :
    read_dir [⟨"a", some FType.other⟩, ⟨"b", some FType.file⟩] 1 = some [] ∧
    (([⟨"a", some FType.other⟩, ⟨"b", some FType.file⟩] : List DirEntry).filterMap
        specAccept).take 1 = ["b"] ∧
    (some [] : Option (List String)) ≠ some ["b"] := by
  decide

/-- C4 (amended): with limit `N > 0`, `read_dir` examines exactly the
first `N` entries that pass the name filter — the counter is decremented
for every such entry, including those skipped for their file type — and
returns the accepted ones among them (directories suffixed with the
separator, files bare, others dropped); with limit 0 it examines and
returns all accepted entries.  A metadata failure among the examined
entries fails the whole listing. -/
theorem read_dir_limit_spec (es : List DirEntry) (n : Int) :
    (0 < n → read_dir es n =
      (if ((es.filter fun e => !nameSkip e.name).take n.toNat).all (fun e => e.ftype.isSome)
       then some (((es.filter fun e => !nameSkip e.name).take n.toNat).filterMap specAccept)
       else none)) ∧
    (read_dir es 0 =
      if es.all (fun e => nameSkip e.name || e.ftype.isSome)
      then some (es.filterMap specAccept) else none) :=
  ⟨fun hn => read_dir_pos es n hn, read_dir_nonpos es 0 le_rfl⟩

/-- C4 witness: limit 1 on two files returns exactly the first. -/
theorem read_dir_limit_spec_w :
    read_dir [⟨"b", some FType.file⟩, ⟨"c", some FType.file⟩] 1 = some ["b"] := by
  have h := (read_dir_limit_spec [⟨"b", some FType.file⟩, ⟨"c", some FType.file⟩] 1).1
    (by decide)
  rw [h]
  decide

/-! ## C5: the leaf-object classifier -/

theorem perm_all_eq {α : Type} (f : α → Bool) {l l' : List α} (h : l.Perm l') :
    l.all f = l'.all f := by
  induction h with
  | nil => rfl
  | cons x _ ih => simp [List.all_cons, ih]
  | swap x y l => simp [List.all_cons, Bool.and_left_comm]
  | trans _ _ ih1 ih2 => rw [ih1, ih2]

theorem perm_any_eq {α : Type} (f : α → Bool) {l l' : List α} (h : l.Perm l') :
    l.any f = l'.any f := by
  induction h with
  | nil => rfl
  | cons x _ ih => simp [List.any_cons, ih]
  | swap x y l => simp [List.any_cons, Bool.or_left_comm]
  | trans _ _ ih1 ih2 => rw [ih1, ih2]

/-- C5 (counterexample): the classifier accepts any form accepted by
`uuid::Uuid::parse_str`, not only the canonical hyphenated form.  A
subdirectory named by 32 bare hex digits (the simple form) yields `true`,
although its name does not parse as a canonical (hyphenated) UUID — so the
claimed equivalence with "every subdirectory name is a canonical UUID"
fails. -/
theorem leaf_dir_canonical_uuid_cex :
    is_empty_dir_except_xlmeta
        (some [⟨"00000000000000000000000000000000", some FType.dir⟩]) = true ∧
    dirListing (some [⟨"00000000000000000000000000000000", some FType.dir⟩]) 0 =
      some ["00000000000000000000000000000000/"] ∧
    endsWithSlash "00000000000000000000000000000000/" = true ∧
    canonicalUuidOk (trimTrailingSlashes "00000000000000000000000000000000/") = false := by
  decide

/-- C5 (amended): with "canonical UUID" relaxed to "any UUID form accepted
by the parser (simple, hyphenated, braced, urn)": when the unlimited
listing succeeds, the classifier answers `true` iff every subdirectory
entry (name with trailing separator), separator stripped, parses as a
UUID; file entries never affect the result; any listing failure (open or
metadata) answers `true`; and the answer is independent of the order of
the directory entries. -/
theorem leaf_dir_spec (es es' : List DirEntry) (l : List String) :
    (dirListing (some es) 0 = some l →
      (is_empty_dir_except_xlmeta (some es) = true ↔
        ∀ name ∈ l, endsWithSlash name = true →
          uuidParseOk (trimTrailingSlashes name) = true)) ∧
    (dirListing (some es) 0 = none → is_empty_dir_except_xlmeta (some es) = true) ∧
    is_empty_dir_except_xlmeta (none : Option (List DirEntry)) = true ∧
    (es.Perm es' →
      is_empty_dir_except_xlmeta (some es) = is_empty_dir_except_xlmeta (some es')) := by
  refine ⟨?_, ?_, rfl, ?_⟩
  · intro h
    simp only [is_empty_dir_except_xlmeta, h]
    simp only [Bool.not_eq_true', List.any_eq_false]
    refine forall_congr' fun name => ?_
    refine forall_congr' fun hmem => ?_
    cases hends : endsWithSlash name <;> simp [hends]
  · intro h
    simp only [is_empty_dir_except_xlmeta, h]
  · intro hperm
    simp only [is_empty_dir_except_xlmeta, dirListing]
    rw [read_dir_nonpos es 0 le_rfl, read_dir_nonpos es' 0 le_rfl,
      perm_all_eq _ hperm]
    cases hall : es'.all fun e => nameSkip e.name || e.ftype.isSome
    · simp [hall]
    · simp only [hall, if_true]
      rw [perm_any_eq _ (hperm.filterMap specAccept)]

/-- C5 witness: the spec scenario — a metadata file plus one
UUID-named data directory is classified as leaf-only. -/
theorem leaf_dir_spec_w :
    is_empty_dir_except_xlmeta (some [⟨"xl.meta", some FType.file⟩,
        ⟨"550e8400-e29b-41d4-a716-446655440000", some FType.dir⟩]) = true :=
  ((leaf_dir_spec [⟨"xl.meta", some FType.file⟩,
        ⟨"550e8400-e29b-41d4-a716-446655440000", some FType.dir⟩] []
        ["xl.meta", "550e8400-e29b-41d4-a716-446655440000/"]).1 (by decide)).mpr
    (by decide)

/-! ## C8: `rename_all` retry behaviour -/

/-- C8: after a successful destination-parent preparation (ending at
counter `s1`), the rename loop behaves as specified: a `NotFound` rename
failure is success; any other first failure is retried exactly once (two
recorded rename calls); a second failure is propagated unless it is
`NotFound`, which again is success. -/
theorem rename_all_retry_spec (env : Nat → Outcome) (fenv : Nat → Bool)
    (src dst baseDir : RPath) (s s1 : Nat) (tr : List (RPath × List Call))
    (hmp : mk_parent_phase (oracleRen env fenv) dst baseDir s = (Except.ok (), s1, tr)) :
    (env s1 = Outcome.err ErrKind.notFound →
      reliable_rename (oracleRen env fenv) src dst baseDir s =
        (Except.ok (), s1 + 1, [Call.renameC src dst])) ∧
    (env s1 = Outcome.ok →
      reliable_rename (oracleRen env fenv) src dst baseDir s =
        (Except.ok (), s1 + 1, [Call.renameC src dst])) ∧
    (∀ k, env s1 = Outcome.err k → k ≠ ErrKind.notFound →
      ((env (s1 + 1) = Outcome.ok ∨ env (s1 + 1) = Outcome.err ErrKind.notFound) →
        reliable_rename (oracleRen env fenv) src dst baseDir s =
          (Except.ok (), s1 + 2, [Call.renameC src dst, Call.renameC src dst])) ∧
      (∀ k2, env (s1 + 1) = Outcome.err k2 → k2 ≠ ErrKind.notFound →
        reliable_rename (oracleRen env fenv) src dst baseDir s =
          (Except.error k2, s1 + 2, [Call.renameC src dst, Call.renameC src dst]))) := by
  unfold reliable_rename
  simp only [hmp]
  refine ⟨?_, ?_, ?_⟩
  · intro h1
    simp [rename_retry_loop, oracleRen, oraclePrim, h1]
  · intro h1
    simp [rename_retry_loop, oracleRen, oraclePrim, h1]
  · intro k h1 hk
    constructor
    · rintro (h2 | h2) <;>
        cases k <;> simp_all [rename_retry_loop, oracleRen, oraclePrim]
    · intro k2 h2 hk2
      cases k <;> cases k2 <;> simp_all [rename_retry_loop, oracleRen, oraclePrim]

/-- C8 witness: the spec scenario — the source no longer exists (rename
reports `NotFound`), and `rename_all` succeeds. -/
theorem rename_all_retry_spec_w :
    reliable_rename (oracleRen (fun _ => Outcome.err ErrKind.notFound) (fun _ => true))
        ⟨false, ["x"]⟩ ⟨false, []⟩ ⟨false, ["z"]⟩ 0 =
      (Except.ok (), 1, [Call.renameC ⟨false, ["x"]⟩ ⟨false, []⟩]) :=
  (rename_all_retry_spec (fun _ => Outcome.err ErrKind.notFound) (fun _ => true)
      ⟨false, ["x"]⟩ ⟨false, []⟩ ⟨false, ["z"]⟩ 0 0 [] (by decide)).1 rfl

/-! ## C9: the path validator -/

/-- The segment loop only ever produces `FileNameTooLong`. -/
theorem segLoop_some (os : Os) (cs : List Char) : ∀ (n : Nat) (e : DiskError),
    segLoop os cs n = some e → e = DiskError.fileNameTooLong := by
  induction cs with
  | nil => intro n e h; simp [segLoop] at h
  | cons c rest ih =>
    intro n e h
    simp only [segLoop] at h
    split at h
    · exact ih 0 e h
    · split at h
      · exact ih 0 e h
      · split at h
        · exact (Option.some.inj h).symm
        · exact ih (n + 1) e h

/-- Recursive restatement of "every segment fits": mirrors the counting
loop, used to connect it with the segment decomposition. -/
def segsShort (os : Os) : List Char → Nat → Bool
  | [], _ => true
  | c :: rest, count =>
    if c = '/' then segsShort os rest 0
    else if os = Os.windows ∧ c = '\\' then segsShort os rest 0
    else decide (count + 1 ≤ 255) && segsShort os rest (count + 1)

theorem segLoop_none_iff (os : Os) (cs : List Char) : ∀ (n : Nat),
    segLoop os cs n = none ↔ segsShort os cs n = true := by
  induction cs with
  | nil => intro n; simp [segLoop, segsShort]
  | cons c rest ih =>
    intro n
    by_cases h1 : c = '/'
    · simp only [segLoop, segsShort, if_pos h1]
      exact ih 0
    · by_cases h2 : os = Os.windows ∧ c = '\\'
      · simp only [segLoop, segsShort, if_neg h1, if_pos h2]
        exact ih 0
      · by_cases h3 : n + 1 > 255
        · simp only [segLoop, segsShort, if_neg h1, if_neg h2, if_pos h3]
          simp
          omega
        · simp only [segLoop, segsShort, if_neg h1, if_neg h2, if_neg h3]
          simp only [Bool.and_eq_true, decide_eq_true_eq]
          rw [ih (n + 1)]
          constructor
          · intro h; exact ⟨by omega, h⟩
          · intro h; exact h.2

/-- The segment decomposition is never empty. -/
theorem splitSegs_ne_nil (os : Os) (cs : List Char) : splitSegs os cs ≠ [] := by
  cases cs with
  | nil => simp [splitSegs]
  | cons c rest =>
    simp only [splitSegs]
    split
    · simp
    · split
      · simp
      · split <;> simp

/-- The counting loop agrees with the segment decomposition: with `n`
characters of the current segment already counted, it accepts exactly when
the current segment still fits and every later segment fits. -/
theorem segsShort_iff_segs (os : Os) (cs : List Char) : ∀ (n : Nat), n ≤ 255 →
    ∀ s ss, splitSegs os cs = s :: ss →
      (segsShort os cs n = true ↔
        (n + s.length ≤ 255 ∧ ss.all (fun t => decide (t.length ≤ 255)) = true)) := by
  induction cs with
  | nil =>
    intro n hn s ss hsplit
    simp [splitSegs] at hsplit
    obtain ⟨rfl, rfl⟩ := hsplit
    simp [segsShort]
    omega
  | cons c rest ih =>
    intro n hn s ss hsplit
    rcases hsp : splitSegs os rest with _ | ⟨s', ss'⟩
    · exact (splitSegs_ne_nil os rest hsp).elim
    · by_cases h1 : c = '/'
      · rw [splitSegs, if_pos h1, hsp] at hsplit
        obtain ⟨rfl, rfl⟩ := List.cons.inj hsplit
        simp only [segsShort, if_pos h1]
        rw [ih 0 (by omega) s' ss' hsp]
        simp [List.all_cons]
        intro _ _
        omega
      · by_cases h2 : os = Os.windows ∧ c = '\\'
        · rw [splitSegs, if_neg h1, if_pos h2, hsp] at hsplit
          obtain ⟨rfl, rfl⟩ := List.cons.inj hsplit
          simp only [segsShort, if_neg h1, if_pos h2]
          rw [ih 0 (by omega) s' ss' hsp]
          simp [List.all_cons]
          intro _ _
          omega
        · rw [splitSegs, if_neg h1, if_neg h2, hsp] at hsplit
          obtain ⟨rfl, rfl⟩ := List.cons.inj hsplit
          simp only [segsShort, if_neg h1, if_neg h2]
          by_cases h3 : n + 1 ≤ 255
          · rw [Bool.and_eq_true, decide_eq_true_eq]
            rw [ih (n + 1) h3 s' ss' hsp]
            simp only [List.length_cons]
            constructor
            · rintro ⟨hx, hy, hz⟩; exact ⟨by omega, hz⟩
            · rintro ⟨hx, hy⟩; exact ⟨by omega, by omega, hy⟩
          · rw [Bool.and_eq_true, decide_eq_true_eq]
            simp only [List.length_cons]
            constructor
            · rintro ⟨hx, _⟩; omega
            · rintro ⟨hx, _⟩; omega

/-- C9: `check_path_length` returns `FileAccessDenied` exactly for the
whole paths `.`, `..`, `/`; it returns `FileNameTooLong` whenever some
segment between separators exceeds 255 characters, on every platform; the
macOS total-byte limit (1016) and Windows total-byte limit (1024) take
precedence; and the function is pure (a total function of the path and
platform). -/
theorem check_path_length_spec (os : Os) (p : String) :
    (check_path_length os p = Except.error DiskError.fileAccessDenied ↔
      (p = "." ∨ p = ".." ∨ p = "/")) ∧
    (hasLongSeg os p = true →
      check_path_length os p = Except.error DiskError.fileNameTooLong) ∧
    (os = Os.macos → 1016 < p.utf8ByteSize →
      check_path_length os p = Except.error DiskError.fileNameTooLong) ∧
    (os = Os.windows → 1024 < p.utf8ByteSize →
      check_path_length os p = Except.error DiskError.fileNameTooLong) := by
  refine ⟨⟨?_, ?_⟩, ?_, ?_, ?_⟩
  · intro h
    unfold check_path_length at h
    split at h
    · simp at h
    · split at h
      · simp at h
      · split at h
        · assumption
        · rcases hs : segLoop os p.data 0 with _ | e
          · rw [hs] at h
            simp at h
          · rw [hs] at h
            have he := segLoop_some os p.data 0 e hs
            subst he
            simp at h
  · intro hmem
    rcases hmem with rfl | rfl | rfl <;> cases os <;> decide
  · intro hl
    unfold check_path_length
    split
    · rfl
    · split
      · rfl
      · split
        · exfalso
          rename_i hmem
          rcases hmem with rfl | rfl | rfl <;> cases os <;> exact absurd hl (by decide)
        · rcases hs : segLoop os p.data 0 with _ | e
          · exfalso
            have hshort := (segLoop_none_iff os p.data 0).mp hs
            rcases hsp : splitSegs os p.data with _ | ⟨s, ss⟩
            · exact splitSegs_ne_nil os p.data hsp
            · have hc := (segsShort_iff_segs os p.data 0 (by omega) s ss hsp).mp hshort
              unfold hasLongSeg at hl
              rw [hsp] at hl
              simp only [List.any_cons, Bool.or_eq_true, List.any_eq_true,
                decide_eq_true_eq] at hl
              rcases hl with hl | ⟨t, ht, hlt⟩
              · omega
              · have hall := List.all_eq_true.mp hc.2 t ht
                simp at hall
                omega
          · have he := segLoop_some os p.data 0 e hs
            subst he
            rfl
  · intro h1 h2
    simp [check_path_length, h1, h2]
  · intro h1 h2
    simp [check_path_length, h1, h2]

set_option maxRecDepth 4096 in
/-- C9 witness: the spec scenario — a 300-character single segment fails
with `FileNameTooLong` (here on the Linux-class platform, where no
total-length check intervenes). -/
theorem check_path_length_spec_w :
    check_path_length Os.linux (String.mk (List.replicate 300 'a')) =
      Except.error DiskError.fileNameTooLong :=
  (check_path_length_spec Os.linux (String.mk (List.replicate 300 'a'))).2.1 (by decide)

end RustfsOs
